import Mathlib

/-!
Verification of the wordpress-scan configuration resolution engine and the
detector runner, as a shallow embedding of the Go sources
(`internal/config/config.go`, `internal/detector/*.go`, `internal/cli/scan.go`).

Modelling conventions:
* Go strings are Lean `String`s; `strings.TrimSpace` is modelled by `goTrim`
  over the Latin-1 white-space set used by Go's fast path (further Unicode
  white-space classes are not modelled).
* The file system is a parameter `fs : FS` mapping an absolute path to the
  raw lines of the file (`none` = the open fails), and the working directory
  is a parameter `cwd` (Go reads it via `os.Getwd`).
* The environment is a parameter `env : String → String` (`os.Getenv`; the
  empty string means unset, exactly as Go's `os.Getenv` reports it).
* Go `int` is modelled as `Int`; `strconv.Atoi` is `goAtoi` including the
  64-bit range check that makes out-of-range inputs report an error.
* Fallible Go functions returning `(T, error)` become `Except String T`.
-/

/-- Lines of the file stored at an absolute path, or `none` when opening
fails (missing file, directory, permission error). -/
abbrev FS := String → Option (List String)

/-- The Latin-1 white-space set of Go's `unicode.IsSpace` fast path:
`\t \n \v \f \r ' '` plus U+0085 and U+00A0. -/
def isSpaceChar (c : Char) : Bool :=
  c = ' ' || c = '\t' || c = '\n' || c = '\x0b' || c = '\x0c' || c = '\r' ||
  c = (Char.ofNat 0x85) || c = (Char.ofNat 0xA0)

/-- Drop leading and trailing characters satisfying `p`. -/
def trimChars (p : Char → Bool) (l : List Char) : List Char :=
  ((l.dropWhile p).reverse.dropWhile p).reverse

/-- Go `strings.TrimSpace`: drop leading and trailing white space. -/
def goTrim (s : String) : String :=
  String.mk (trimChars isSpaceChar s.data)

/-- Does the character list `hay` start with `needle`? (byte-for-byte, as
Go's `strings.HasPrefix` on ASCII needles). -/
def listStartsWith : List Char → List Char → Bool
  | _, [] => true
  | [], _ :: _ => false
  | h :: hs, n :: ns => h = n && listStartsWith hs ns

/-- Go `strings.Contains sub s`: `needle` occurs as a contiguous substring. -/
def listContainsSub : List Char → List Char → Bool
  | [], needle => listStartsWith [] needle
  | h :: rest, needle =>
    if listStartsWith (h :: rest) needle then true else listContainsSub rest needle

/-- Go `strings.Contains s sub` (ASCII needles only, which is all the source
uses: the needle is always `".."`). -/
def goContains (s sub : String) : Bool :=
  listContainsSub s.data sub.data

/-- Go `strings.HasPrefix` (ASCII needles, as used by the source). -/
def goStartsWith (s pre : String) : Bool :=
  listStartsWith s.data pre.data

/-- Split a character list at a separator, keeping empty segments — the
behaviour of Go `strings.Split` and of the segment scan in
`path/filepath.Clean`. -/
def splitCharAux (sep : Char) : List Char → List Char → List String
  | [], acc => [String.mk acc.reverse]
  | c :: cs, acc =>
    if c = sep then String.mk acc.reverse :: splitCharAux sep cs []
    else splitCharAux sep cs (c :: acc)

/-- Split a string on `/`. -/
def splitOnSlash (s : String) : List String :=
  splitCharAux '/' s.data []

/-- Join segments with `/`. -/
def intercalateSlash : List String → String
  | [] => ""
  | [x] => x
  | x :: y :: rest => x ++ "/" ++ intercalateSlash (y :: rest)

/-- ASCII lower-casing (enough to model the `strings.EqualFold(v, "true")`
and `strings.ToLower(format)` uses in the source, whose interesting inputs
are ASCII). -/
def goToLower (s : String) : String :=
  String.mk (s.data.map (fun c =>
    if 'A' ≤ c && c ≤ 'Z' then Char.ofNat (c.toNat + 32) else c))

/-- One pass of the segment stack underlying Go `path/filepath.Clean`:
`".."` pops a real segment, is dropped at the root, and accumulates at the
front of a relative path; every other segment is pushed. -/
def cleanPush (rooted : Bool) (acc : List String) (seg : String) : List String :=
  if seg = ".." then
    if rooted then acc.dropLast
    else match acc.getLast? with
      | some last => if last = ".." then acc ++ [".."] else acc.dropLast
      | none => [".."]
  else acc ++ [seg]

/-- Go `path/filepath.Clean` (Unix rules): lexically resolve `.` and `..`
segments and collapse repeated separators. -/
def goClean (path : String) : String :=
  if path = "" then "."
  else
    let rooted := goStartsWith path "/"
    let segs := (splitOnSlash path).filter (fun s => s ≠ "" && s ≠ ".")
    let out := segs.foldl (cleanPush rooted) []
    if out = [] then (if rooted then "/" else ".")
    else (if rooted then "/" else "") ++ intercalateSlash out

/-- Go `path/filepath.Abs` with the working directory made explicit:
an absolute path is cleaned, a relative one is joined onto `cwd`
(`filepath.Join` cleans the joined string). -/
def goAbs (cwd path : String) : String :=
  if goStartsWith path "/" then goClean path else goClean (cwd ++ "/" ++ path)

/-- Go `strconv.Atoi`: optional sign, one or more ASCII digits, and the
value must fit in a signed 64-bit `int`; anything else reports an error
(`none`). -/
def goAtoi (s : String) : Option Int :=
  match s.data with
  | [] => none
  | c :: rest =>
    let signed : Bool × List Char :=
      if c = '-' then (true, rest) else if c = '+' then (false, rest) else (false, c :: rest)
    match signed with
    | (neg, digits) =>
      if digits = [] then none
      else if digits.all Char.isDigit then
        let n : Nat := digits.foldl (fun a d => a * 10 + (d.toNat - 48)) 0
        let v : Int := if neg then -(n : Int) else (n : Int)
        if -9223372036854775808 ≤ v ∧ v ≤ 9223372036854775807 then some v else none
      else none

/-- `MaxThreads` from `internal/config/config.go`. -/
def MaxThreads : Int := 64

/-- Environment alias lists from `internal/config/config.go`. -/
def envTargetsKeys : List String := ["WPHUNTER_TARGETS", "WORKER_TARGETS"]

def envTargetsFileKeys : List String := ["WPHUNTER_TARGETS_FILE", "WORKER_TARGETS_FILE"]

def envModeKeys : List String := ["WPHUNTER_MODE", "WORKER_MODE"]

def envThreadsKeys : List String := ["WPHUNTER_THREADS", "WORKER_THREADS"]

def envOutputDirKeys : List String := ["WPHUNTER_OUTPUT_DIR", "WORKER_OUTPUT_DIR"]

def envFormatsKeys : List String := ["WPHUNTER_FORMATS", "WORKER_FORMATS"]

def envDryRunKeys : List String := ["WPHUNTER_DRY_RUN", "WORKER_DRY_RUN"]

def envSummaryFileKeys : List String := ["WPHUNTER_SUMMARY_FILE", "WORKER_SUMMARY_FILE"]

def envDetectorsKeys : List String := ["WPHUNTER_DETECTORS", "WORKER_DETECTORS"]

/-- `RuntimeConfig` from `internal/config/config.go`. -/
@[ext]
structure RuntimeConfig where
  Targets : List String
  Mode : String
  Threads : Int
  OutputDir : String
  Formats : List String
  Detectors : List String
  DryRun : Bool
  SummaryFile : String
deriving DecidableEq

/-- `Overrides` from `internal/config/config.go`: a sparse patch.  Go's
`*bool` field `DryRun` is `Option Bool`; the `Threads`/`ThreadsSet` pair is
kept as in the source. -/
structure Overrides where
  Targets : List String
  TargetsFile : String
  Mode : String
  Threads : Int
  ThreadsSet : Bool
  OutputDir : String
  Formats : List String
  Detectors : List String
  DryRun : Option Bool
  SummaryFile : String
deriving DecidableEq

/-- The zero value `Overrides{}` of Go. -/
def Overrides.empty : Overrides :=
  { Targets := [], TargetsFile := "", Mode := "", Threads := 0, ThreadsSet := false,
    OutputDir := "", Formats := [], Detectors := [], DryRun := none, SummaryFile := "" }

/-- `DefaultRuntimeConfig` from `internal/config/config.go`. -/
def DefaultRuntimeConfig : RuntimeConfig :=
  { Targets := [], Mode := "hybrid", Threads := 10, OutputDir := "scan-results",
    Formats := ["json", "csv"], Detectors := ["version"], DryRun := false, SummaryFile := "" }

/-- `cleanList` from `internal/config/config.go`: trim each entry and drop
the ones that become empty (no deduplication). -/
def cleanList : List String → List String
  | [] => []
  | v :: rest =>
    let candidate := goTrim v
    if candidate ≠ "" then candidate :: cleanList rest else cleanList rest

/-- The field accumulator of Go `strings.FieldsFunc`: split at separator
characters, emitting only non-empty fields. -/
def fieldsAux (sep : Char → Bool) : List Char → List Char → List String
  | [], acc => if acc = [] then [] else [String.mk acc.reverse]
  | c :: cs, acc =>
    if sep c then
      if acc = [] then fieldsAux sep cs []
      else String.mk acc.reverse :: fieldsAux sep cs []
    else fieldsAux sep cs (c :: acc)

/-- `splitOnDelimiters` from `internal/config/config.go`. -/
def splitOnDelimiters (input : String) (delims : List Char) : List String :=
  if input = "" then []
  else
    let trimmed := goTrim input
    if trimmed = "" then []
    else cleanList (fieldsAux (fun r => delims.contains r) trimmed.data [])

/-- `ParseTargetsList` from `internal/config/config.go`. -/
def ParseTargetsList (input : String) : List String :=
  splitOnDelimiters input [',', '\n', '\r']

/-- `ParseFormats` from `internal/config/config.go`. -/
def ParseFormats (input : String) : List String :=
  splitOnDelimiters input [',', '\n', '\r', ' ']

/-- `ParseDetectors` from `internal/config/config.go`. -/
def ParseDetectors (input : String) : List String :=
  splitOnDelimiters input [',', '\n', '\r', ' ']

/-- `validateFilePath` from `internal/config/config.go`: reject the empty
path, a path holding a null byte, and a path longer than 4096 bytes. -/
def validateFilePath (path : String) : Option String :=
  if path = "" then some "path cannot be empty"
  else if path.data.contains (Char.ofNat 0) then some "path contains null byte"
  else if path.utf8ByteSize > 4096 then some "path too long"
  else none

/-- The denylist of `isSystemFile` from `internal/config/config.go`. -/
def systemPaths : List String :=
  ["/etc/passwd", "/etc/shadow", "/etc/hosts", "/etc/group", "/proc/", "/sys/", "/dev/"]

/-- `isSystemFile` from `internal/config/config.go`. -/
def isSystemFile (absPath : String) : Bool :=
  systemPaths.any (fun sysPath => absPath == sysPath || goStartsWith absPath sysPath)

/-- `readTargetsFile` from `internal/config/config.go`: validate, lexically
clean, reject a remaining `..` substring, resolve to an absolute path,
reject system files, then read the file line by line, trimming and skipping
blanks and `#` comments. -/
def readTargetsFile (cwd : String) (path : String) (fs : FS) : Except String (List String) :=
  match validateFilePath path with
  | some e => .error e
  | none =>
    let cleanedPath := goClean path
    if goContains cleanedPath ".." then .error ("path traversal detected: " ++ path)
    else
      let absPath := goAbs cwd cleanedPath
      if isSystemFile absPath then .error ("access to system file denied: " ++ path)
      else match fs absPath with
        | none => .error ("open " ++ absPath ++ ": no such file or directory")
        | some lines =>
          .ok (lines.filterMap (fun l =>
            let line := goTrim l
            if line == "" || goStartsWith line "#" then none else some line))

/-- The scalar and list assignments of `RuntimeConfig.apply` that follow the
two targets steps (`Mode` through `SummaryFile`); each field is overwritten
exactly when the layer sets it. -/
def applyRest (c : RuntimeConfig) (src : Overrides) : RuntimeConfig :=
  { c with
    Mode := if src.Mode ≠ "" then src.Mode else c.Mode,
    Threads := if src.ThreadsSet then src.Threads else c.Threads,
    OutputDir := if src.OutputDir ≠ "" then src.OutputDir else c.OutputDir,
    Formats := if src.Formats.length > 0 then cleanList src.Formats else c.Formats,
    Detectors := if src.Detectors.length > 0 then cleanList src.Detectors else c.Detectors,
    DryRun := match src.DryRun with | some b => b | none => c.DryRun,
    SummaryFile := if src.SummaryFile ≠ "" then src.SummaryFile else c.SummaryFile }

/-- The first assignment of `RuntimeConfig.apply`: install the cleaned
inline target list when the layer sets one. -/
def targetsStep (c : RuntimeConfig) (src : Overrides) : RuntimeConfig :=
  if src.Targets.length > 0 then { c with Targets := cleanList src.Targets } else c

/-- `RuntimeConfig.apply` from `internal/config/config.go`: first the inline
target list (cleaned), then — overriding it — the targets-file contents when
the layer names a file, then the remaining fields. -/
def RuntimeConfig.apply (cwd : String) (fs : FS) (c : RuntimeConfig) (src : Overrides) :
    Except String RuntimeConfig :=
  let c1 := targetsStep c src
  if src.TargetsFile ≠ "" then
    match readTargetsFile cwd src.TargetsFile fs with
    | .error e => .error e
    | .ok values => .ok (applyRest { c1 with Targets := values } src)
  else .ok (applyRest c1 src)

/-- `lookupEnv` from `internal/config/config.go`: the first alias with a
non-empty value wins. -/
def lookupEnv (env : String → String) : List String → String
  | [] => ""
  | key :: rest =>
    let value := env key
    if value ≠ "" then value else lookupEnv env rest

/-- `overridesFromEnv` from `internal/config/config.go`, written as the net
record the sequence of conditional assignments produces (each logical key
writes its own fields exactly once).  A string key left unset by every alias
yields the zero value `""` (so the field stays unset); a threads value that
does not parse with `Atoi` leaves `Threads`/`ThreadsSet` at their zero
values — the deliberate leniency of the source; `EqualFold(v, "true")` is
modelled by ASCII lower-casing. -/
def overridesFromEnv (env : String → String) : Overrides :=
  { Targets :=
      (let tv := lookupEnv env envTargetsKeys
        if tv ≠ "" then ParseTargetsList tv else []),
    TargetsFile := lookupEnv env envTargetsFileKeys,
    Mode := lookupEnv env envModeKeys,
    Threads :=
      (match goAtoi (lookupEnv env envThreadsKeys) with
        | some parsed => parsed
        | none => 0),
    ThreadsSet :=
      (match goAtoi (lookupEnv env envThreadsKeys) with
        | some _ => true
        | none => false),
    OutputDir := lookupEnv env envOutputDirKeys,
    Formats :=
      (let fv := lookupEnv env envFormatsKeys
        if fv ≠ "" then ParseFormats fv else []),
    Detectors :=
      (let dev := lookupEnv env envDetectorsKeys
        if dev ≠ "" then ParseDetectors dev else []),
    DryRun :=
      (let dv := lookupEnv env envDryRunKeys
        if dv ≠ "" then some (goToLower dv == "true" || dv == "1") else none),
    SummaryFile := lookupEnv env envSummaryFileKeys }

/-- `Loader.Load` from `internal/config/config.go`, with the effectful
boundary made explicit: `fileOv` is `none` when no config file exists,
`some (.error e)` when reading or YAML-parsing it fails, and
`some (.ok ov)` for the parsed file layer.  Defaults, then file, then
environment, then the explicit overrides. -/
def loadFileStep (cwd : String) (fs : FS) (fileOv : Option (Except String Overrides)) :
    Except String RuntimeConfig :=
  match fileOv with
  | none => .ok DefaultRuntimeConfig
  | some (.error e) => .error e
  | some (.ok ov) => RuntimeConfig.apply cwd fs DefaultRuntimeConfig ov

def Load (cwd : String) (fs : FS) (fileOv : Option (Except String Overrides))
    (env : String → String) (explicit : Overrides) : Except String RuntimeConfig :=
  match loadFileStep cwd fs fileOv with
  | .error e => .error e
  | .ok cfg1 =>
    match RuntimeConfig.apply cwd fs cfg1 (overridesFromEnv env) with
    | .error e => .error e
    | .ok cfg2 => RuntimeConfig.apply cwd fs cfg2 explicit

/-- `RuntimeConfig.Validate` from `internal/config/config.go`. -/
def RuntimeConfig.Validate (c : RuntimeConfig) : Option String :=
  if c.Targets.length = 0 then
    some "no targets configured; provide --targets, --targets-file, or set WORKER_TARGETS"
  else if c.Threads < 1 ∨ c.Threads > MaxThreads then
    some ("threads must be between 1 and " ++ toString MaxThreads ++
      " (got " ++ toString c.Threads ++ ")")
  else if c.Mode = "" then some "scan mode must be specified"
  else if c.Formats.length = 0 then some "at least one output format must be specified"
  else if c.OutputDir = "" then some "output directory cannot be empty"
  else none

/-- Is an `Except` the error case? -/
def exceptIsError {α : Type} : Except String α → Bool
  | .error _ => true
  | .ok _ => false

/-- `Result` from `internal/detector/detector.go`.  The free-form JSON
`Metadata` map and the `float64` `Confidence` score are not modelled: no
verified claim depends on them, and floating point is outside the
embedding. -/
structure Result where
  Target : String
  Detector : String
  Severity : String
  Summary : String
deriving DecidableEq

/-- The `Detector` interface of `internal/detector/detector.go`: a stable
name and a per-target detection outcome (the in-flight call itself is not
interrupted by cancellation, matching `Run`, which only checks the context
between calls). -/
structure Detector where
  Name : String
  Detect : String → Except String Result

/-- A Go `context.Context` at the granularity `Run` observes it:
`doneAt k` tells whether the cancellation check before the `k`-th detector
invocation (counting from 0 across the whole run) sees a closed `Done`
channel, and `err` is the value of `ctx.Err()` then. -/
structure Ctx where
  doneAt : Nat → Bool
  err : String

/-- The never-cancelled context. -/
def Ctx.live : Ctx := { doneAt := fun _ => false, err := "context canceled" }

/-- A sample detector that succeeds on every target (for concrete
witnesses). -/
def passingDetector : Detector :=
  { Name := "good",
    Detect := fun t =>
      .ok { Target := t, Detector := "good", Severity := "info", Summary := "clean" } }

/-- A sample detector that errors on every target (for concrete
witnesses). -/
def failingDetector : Detector :=
  { Name := "bad", Detect := fun _ => .error "boom" }

/-- The per-pair outcome of the loop body of `Run`
(`internal/detector`, `Run`): a detector error is converted into a
synthetic info-severity result whose summary carries the error text
(`fmt.Sprintf("detector error: %v", err)`). -/
def detectResult (t : String) (d : Detector) : Result :=
  match d.Detect t with
  | .ok r => r
  | .error e => { Target := t, Detector := d.Name, Severity := "info",
                  Summary := "detector error: " ++ e }

/-- The inner (detector) loop of `Run`, threading the invocation counter
`k`; the third component reports whether the cancellation check fired. -/
def runInner (ctx : Ctx) (t : String) : List Detector → Nat → List Result × Nat × Bool
  | [], k => ([], k, false)
  | d :: rest, k =>
    if ctx.doneAt k then ([], k, true)
    else
      match runInner ctx t rest (k + 1) with
      | (rs, k', c) => (detectResult t d :: rs, k', c)

/-- The outer (target) loop of `Run`. -/
def runOuter (ctx : Ctx) (ds : List Detector) : List String → Nat → List Result × Bool
  | [], _ => ([], false)
  | t :: rest, k =>
    match runInner ctx t ds k with
    | (rs, k', c) =>
      if c then (rs, true)
      else
        match runOuter ctx ds rest k' with
        | (rs2, c2) => (rs ++ rs2, c2)

/-- `Run` from `internal/detector` (`src/unnamed/part_001`): for each target
in order, for each detector in order, check cancellation before invoking;
on cancellation return the accumulated results plus `ctx.Err()`; detector
errors are absorbed into synthetic results and never abort the run. -/
def Run (ctx : Ctx) (detectors : List Detector) (targets : List String) :
    List Result × Option String :=
  if detectors.length = 0 ∨ targets.length = 0 then ([], none)
  else
    match runOuter ctx detectors targets 0 with
    | (rs, c) => (rs, if c then some ctx.err else none)

/-- The results of an uninterrupted run: one result per target-detector
pair, targets outer, detectors inner. -/
def pureResults (ds : List Detector) (ts : List String) : List Result :=
  (ts.map (fun t => ds.map (fun d => detectResult t d))).flatten

/-- Go `encoding/json.MarshalIndent(results, "", "  ")` for a
`[]detector.Result` value, with the serialization of one element abstracted
as `ser` (it involves `float64` formatting).  A nil slice — Go's zero value
`var results []detector.Result` — marshals as `null`; a non-nil slice
marshals as an array.  `none` models the nil slice. -/
def goMarshalIndentResults (ser : Result → String) : Option (List Result) → String
  | none => "null"
  | some [] => "[]"
  | some (r :: rs) =>
    "[\n  " ++ String.intercalate ",\n  " ((r :: rs).map ser) ++ "\n]"

/-- The bytes `writeDetectionsArtifact` (`internal/cli/scan.go`) writes:
the indented JSON marshalling with one `'\n'` appended
(`os.WriteFile(path, append(data, '\n'), 0o644)`). -/
def writeDetectionsArtifactBody (ser : Result → String) (results : Option (List Result)) :
    String :=
  goMarshalIndentResults ser results ++ "\n"

/-- Spec-side helper for the layering claim: the value of one field after
folding the layers bottom-up, starting from the default; a `some` layer
overwrites, a `none` layer leaves the accumulator. -/
def resolveOpt {α : Type} (d : α) (layers : List (Option α)) : α :=
  layers.foldl (fun acc o => o.getD acc) d

/-- Spec-side helper: the patch a layer contributes for a string-scalar
field whose set-flag is "non-empty". -/
def setStr (v : String) : Option String :=
  if v = "" then none else some v

/-- Spec-side helper: the patch a layer contributes for a list field whose
set-flag is "non-empty list"; the stored value is the cleaned list, as in
`RuntimeConfig.apply`. -/
def setList (v : List String) : Option (List String) :=
  if v = [] then none else some (cleanList v)

/-- Spec-side helper: the patch a layer contributes for the threads field,
driven by the explicit `ThreadsSet` flag. -/
def setThreads (src : Overrides) : Option Int :=
  if src.ThreadsSet then some src.Threads else none

/-- C6: validation is all-or-nothing — `Validate` accepts exactly the
configurations with a non-empty target list, threads in `[1, 64]`, a
non-empty mode, at least one format and a non-empty output directory; in
particular every threads value below 1 or above `MaxThreads = 64` is
rejected and every in-range value is accepted when the other constraints
hold. -/
theorem validate_accepts_iff_all_bounds (c : RuntimeConfig) :
    c.Validate = none ↔
      (c.Targets ≠ [] ∧ 1 ≤ c.Threads ∧ c.Threads ≤ 64 ∧ c.Mode ≠ "" ∧
        c.Formats ≠ [] ∧ c.OutputDir ≠ "") := by
  unfold RuntimeConfig.Validate MaxThreads
  split_ifs with h1 h2 h3 h4 h5 <;>
    (simp_all [List.length_eq_zero]; try omega)

/-- Witness for C6: a configuration meeting every bound validates, applied
through the characterization. -/
theorem validate_accepts_iff_all_bounds_witness :
    RuntimeConfig.Validate { DefaultRuntimeConfig with Targets := ["https://a.test"] } =
      none :=
  (validate_accepts_iff_all_bounds
    { DefaultRuntimeConfig with Targets := ["https://a.test"] }).mpr
    (by refine ⟨by decide, by decide, by decide, by decide, by decide, by decide⟩)

/-- A passing `validateFilePath` means the path is non-empty, holds no null
byte, and is at most 4096 bytes long. -/
theorem validateFilePath_none_iff (path : String) :
    validateFilePath path = none ↔
      (¬ path = "" ∧ ¬ path.data.contains (Char.ofNat 0) = true ∧
        ¬ path.utf8ByteSize > 4096) := by
  unfold validateFilePath
  split_ifs with a b c <;> simp_all

/-- C4: a path that is empty, holds a null byte, exceeds 4096 bytes, still
contains `..` after lexical cleaning, or whose absolute form falls under the
system-path denylist, makes `readTargetsFile` return an error without ever
consulting the file system (the outcome is identical for every file
system). -/
theorem readTargetsFile_gate_rejects (cwd path : String)
    (h : path = "" ∨ path.data.contains (Char.ofNat 0) = true ∨
      path.utf8ByteSize > 4096 ∨ goContains (goClean path) ".." = true ∨
      isSystemFile (goAbs cwd (goClean path)) = true) :
    ∀ fs fs' : FS, exceptIsError (readTargetsFile cwd path fs) = true ∧
      readTargetsFile cwd path fs = readTargetsFile cwd path fs' := by
  intro fs fs'
  unfold readTargetsFile
  cases hv : validateFilePath path with
  | some e => simp [exceptIsError]
  | none =>
    rcases (validateFilePath_none_iff path).mp hv with ⟨h1, h2, h3⟩
    by_cases hc : goContains (goClean path) ".." = true
    · simp [hc, exceptIsError]
    · have hsys : isSystemFile (goAbs cwd (goClean path)) = true := by
        rcases h with h | h | h | h | h
        · exact absurd h h1
        · exact absurd h h2
        · exact absurd h h3
        · exact absurd h hc
        · exact h
      simp [hc, hsys, exceptIsError]

/-- Witness for C4: with `/home/user` as working directory, the traversal
path `../../etc/passwd` is rejected identically whether or not the file
system could serve it. -/
theorem readTargetsFile_gate_rejects_witness :
    exceptIsError (readTargetsFile "/home/user" "../../etc/passwd" (fun _ => some ["x"])) =
      true ∧
    readTargetsFile "/home/user" "../../etc/passwd" (fun _ => some ["x"]) =
      readTargetsFile "/home/user" "../../etc/passwd" (fun _ => none) :=
  readTargetsFile_gate_rejects "/home/user" "../../etc/passwd"
    (Or.inr (Or.inr (Or.inr (Or.inl (by decide))))) (fun _ => some ["x"]) (fun _ => none)

/-- C10: the traversal gate is a substring test — once `validateFilePath`
passes, every path whose cleaned form contains `..` anywhere (even inside a
single legitimate name) is rejected with the path-traversal error, for every
file system. -/
theorem readTargetsFile_dotdot_substring (cwd path : String)
    (hval : validateFilePath path = none)
    (hdot : goContains (goClean path) ".." = true) :
    ∀ fs : FS, readTargetsFile cwd path fs =
      .error ("path traversal detected: " ++ path) := by
  intro fs
  unfold readTargetsFile
  simp [hval, hdot]

/-- Witness for C10: `report..txt` cleans to itself, contains no traversal
segment, yet is rejected as path traversal before any file access. -/
theorem readTargetsFile_dotdot_substring_witness :
    readTargetsFile "/home/user" "report..txt" (fun _ => some ["https://a.test"]) =
      .error "path traversal detected: report..txt" :=
  readTargetsFile_dotdot_substring "/home/user" "report..txt" (by decide) (by decide)
    (fun _ => some ["https://a.test"])

/-- Dropping a satisfied run twice is the same as dropping it once. -/
theorem dropWhile_self_idem {α : Type} (p : α → Bool) (l : List α) :
    (l.dropWhile p).dropWhile p = l.dropWhile p := by
  induction l with
  | nil => rfl
  | cons a l ih => by_cases h : p a <;> simp [List.dropWhile_cons, h, ih]

/-- The head surviving a `dropWhile` fails the predicate. -/
theorem head_of_dropWhile_false {α : Type} (p : α → Bool) (l : List α) (a : α)
    (h : (l.dropWhile p).head? = some a) : p a = false := by
  induction l with
  | nil => simp at h
  | cons b l ih =>
    by_cases hb : p b
    · rw [List.dropWhile_cons, if_pos hb] at h
      exact ih h
    · rw [List.dropWhile_cons, if_neg hb] at h
      simp at h
      rw [h] at hb
      simpa using hb

/-- A list whose head fails the predicate is untouched by `dropWhile`. -/
theorem dropWhile_eq_self_of_head {α : Type} (p : α → Bool) (l : List α) (a : α)
    (hh : l.head? = some a) (hp : p a = false) : l.dropWhile p = l := by
  cases l with
  | nil => rfl
  | cons b l =>
    simp at hh
    rw [List.dropWhile_cons, hh, if_neg (by simp [hp])]

/-- Trimming the right end of a list (via reverse) keeps it a prefix of the
original. -/
theorem trimRight_isPre {α : Type} (p : α → Bool) (l : List α) :
    (l.reverse.dropWhile p).reverse <+: l := by
  have hs : l.reverse.dropWhile p <:+ l.reverse := List.dropWhile_suffix p
  have h2 := (@List.reverse_prefix _ (l.reverse.dropWhile p) l.reverse).mpr hs
  simpa using h2

/-- Trimming both ends is idempotent. -/
theorem trimChars_idem (p : Char → Bool) (l : List Char) :
    trimChars p (trimChars p l) = trimChars p l := by
  unfold trimChars
  have hwdrop : (((l.dropWhile p).reverse.dropWhile p).reverse).dropWhile p =
      ((l.dropWhile p).reverse.dropWhile p).reverse := by
    cases hcase : (((l.dropWhile p).reverse.dropWhile p).reverse).head? with
    | none =>
      rw [List.head?_eq_none_iff.mp hcase]
      rfl
    | some a =>
      apply dropWhile_eq_self_of_head p _ a hcase
      have hpre : ((l.dropWhile p).reverse.dropWhile p).reverse <+: l.dropWhile p :=
        trimRight_isPre p (l.dropWhile p)
      rcases hpre with ⟨t, ht⟩
      apply head_of_dropWhile_false p l a
      rw [← ht]
      cases hcw : ((l.dropWhile p).reverse.dropWhile p).reverse with
      | nil => rw [hcw] at hcase; simp at hcase
      | cons b wr =>
        rw [hcw] at hcase
        simp at hcase
        simpa using hcase
  rw [hwdrop, List.reverse_reverse, dropWhile_self_idem]

/-- Go `strings.TrimSpace` is idempotent. -/
theorem goTrim_idem (s : String) : goTrim (goTrim s) = goTrim s := by
  unfold goTrim
  exact congrArg String.mk (trimChars_idem isSpaceChar s.data)

/-- Every entry of a cleaned list is trimmed and non-empty. -/
theorem cleanList_mem (l : List String) (s : String) (h : s ∈ cleanList l) :
    goTrim s = s ∧ s ≠ "" := by
  induction l with
  | nil => simp [cleanList] at h
  | cons v rest ih =>
    unfold cleanList at h
    by_cases hv : goTrim v ≠ ""
    · rw [if_pos hv] at h
      rcases List.mem_cons.mp h with h | h
      · subst h
        exact ⟨goTrim_idem v, hv⟩
      · exact ih h
    · rw [if_neg hv] at h
      exact ih h

/-- `cleanList` is `map trim` followed by dropping the entries that became
empty: order is preserved, entries are trimmed, and nothing is
deduplicated. -/
theorem cleanList_eq_filter_map_trim (l : List String) :
    cleanList l = (l.map goTrim).filter (fun s => s ≠ "") := by
  induction l with
  | nil => rfl
  | cons v rest ih =>
    unfold cleanList
    by_cases hv : goTrim v ≠ "" <;>
      simp [List.filter_cons, hv, ih]

/-- Every target produced by `readTargetsFile` is trimmed and non-empty. -/
theorem readTargetsFile_ok_mem (cwd path : String) (fs : FS) (vs : List String)
    (h : readTargetsFile cwd path fs = .ok vs) :
    ∀ s ∈ vs, goTrim s = s ∧ s ≠ "" := by
  intro s hs
  unfold readTargetsFile at h
  cases hv : validateFilePath path with
  | some e => rw [hv] at h; cases h
  | none =>
    rw [hv] at h
    by_cases hc : goContains (goClean path) ".." = true
    · simp [hc] at h
    · simp only [hc] at h
      rw [if_neg (by simp [hc])] at h
      by_cases hsys : isSystemFile (goAbs cwd (goClean path)) = true
      · rw [if_pos hsys] at h; cases h
      · rw [if_neg hsys] at h
        cases hf : fs (goAbs cwd (goClean path)) with
        | none => rw [hf] at h; cases h
        | some lines =>
          rw [hf] at h
          have hvs : vs = lines.filterMap (fun l =>
              let line := goTrim l
              if line == "" || goStartsWith line "#" then none else some line) := by
            cases h; rfl
          rw [hvs] at hs
          rcases List.mem_filterMap.mp hs with ⟨l, _, hl⟩
          simp only at hl
          by_cases hcond : (goTrim l == "" || goStartsWith (goTrim l) "#") = true
          · rw [if_pos hcond] at hl; cases hl
          · rw [if_neg hcond] at hl
            cases hl
            have : ¬ goTrim l == "" := by
              intro e
              exact hcond (by simp [e])
            exact ⟨goTrim_idem l, by simpa using this⟩

/-- `applyRest` never touches the target list. -/
theorem applyRest_Targets (c : RuntimeConfig) (src : Overrides) :
    (applyRest c src).Targets = c.Targets := rfl

/-- One override layer preserves "all targets trimmed and non-empty". -/
theorem apply_targets_trimmed (cwd : String) (fs : FS) (c : RuntimeConfig)
    (src : Overrides) (c' : RuntimeConfig)
    (hc : ∀ s ∈ c.Targets, goTrim s = s ∧ s ≠ "")
    (happ : RuntimeConfig.apply cwd fs c src = .ok c') :
    ∀ s ∈ c'.Targets, goTrim s = s ∧ s ≠ "" := by
  unfold RuntimeConfig.apply at happ
  by_cases htf : src.TargetsFile ≠ ""
  · rw [if_pos htf] at happ
    cases hread : readTargetsFile cwd src.TargetsFile fs with
    | error e => rw [hread] at happ; cases happ
    | ok values =>
      rw [hread] at happ
      cases happ
      intro s hs
      rw [applyRest_Targets] at hs
      exact readTargetsFile_ok_mem cwd src.TargetsFile fs values hread s hs
  · rw [if_neg htf] at happ
    cases happ
    intro s hs
    rw [applyRest_Targets] at hs
    unfold targetsStep at hs
    by_cases hl : src.Targets.length > 0
    · rw [if_pos hl] at hs
      exact cleanList_mem src.Targets s hs
    · rw [if_neg hl] at hs
      exact hc s hs

/-- The file layer preserves "all targets trimmed and non-empty" (starting
from the empty default list). -/
theorem loadFileStep_targets_trimmed (cwd : String) (fs : FS)
    (fileOv : Option (Except String Overrides)) (cfg1 : RuntimeConfig)
    (h : loadFileStep cwd fs fileOv = .ok cfg1) :
    ∀ s ∈ cfg1.Targets, goTrim s = s ∧ s ≠ "" := by
  have hdef : ∀ s ∈ DefaultRuntimeConfig.Targets, goTrim s = s ∧ s ≠ "" := by
    simp [DefaultRuntimeConfig]
  cases fileOv with
  | none => unfold loadFileStep at h; cases h; exact hdef
  | some fo =>
    cases fo with
    | error e => unfold loadFileStep at h; cases h
    | ok ov =>
      unfold loadFileStep at h
      exact apply_targets_trimmed cwd fs DefaultRuntimeConfig ov cfg1 hdef h

/-- Every successfully merged configuration carries only trimmed, non-empty
targets. -/
theorem Load_targets_trimmed (cwd : String) (fs : FS)
    (fileOv : Option (Except String Overrides)) (env : String → String)
    (x : Overrides) (c : RuntimeConfig) (h : Load cwd fs fileOv env x = .ok c) :
    ∀ s ∈ c.Targets, goTrim s = s ∧ s ≠ "" := by
  unfold Load at h
  cases h1 : loadFileStep cwd fs fileOv with
  | error e => rw [h1] at h; cases h
  | ok cfg1 =>
    rw [h1] at h
    dsimp only at h
    cases h2 : RuntimeConfig.apply cwd fs cfg1 (overridesFromEnv env) with
    | error e => rw [h2] at h; cases h
    | ok cfg2 =>
      rw [h2] at h
      dsimp only at h
      exact apply_targets_trimmed cwd fs cfg2 x c
        (apply_targets_trimmed cwd fs cfg1 (overridesFromEnv env) cfg2
          (loadFileStep_targets_trimmed cwd fs fileOv cfg1 h1) h2) h

/-- C8 counterexample: a layer with a duplicated inline target merges into a
target list with two equal entries — `cleanList` trims and drops blanks but
never deduplicates, so "no two equal entries" fails on the code. -/
theorem merged_targets_can_duplicate :
    Except.map RuntimeConfig.Targets
      (Load "/" (fun _ => none) none (fun _ => "")
        { Overrides.empty with Targets := ["a.test", "a.test"] }) =
      .ok ["a.test", "a.test"] ∧
    ¬ (["a.test", "a.test"] : List String).Nodup :=
  ⟨rfl, by decide⟩

/-- C8 (amended): after every successful merge the stored target list has
every entry trimmed and non-empty, and a layer's inline list is stored as
`map trim` followed by dropping blanks — order preserved, nothing merged
element-wise; duplicates, however, are retained (the code never
deduplicates targets). -/
theorem targets_after_merge_trimmed_no_blanks :
    (∀ (cwd : String) (fs : FS) (fileOv : Option (Except String Overrides))
      (env : String → String) (x : Overrides) (c : RuntimeConfig),
      Load cwd fs fileOv env x = .ok c → ∀ s ∈ c.Targets, goTrim s = s ∧ s ≠ "") ∧
    (∀ l : List String, cleanList l = (l.map goTrim).filter (fun s => s ≠ "")) :=
  ⟨Load_targets_trimmed, cleanList_eq_filter_map_trim⟩

/-- Witness for C8 (amended): a concrete merge whose stored target is
trimmed and non-empty. -/
theorem targets_after_merge_trimmed_no_blanks_witness :
    goTrim "a.test" = "a.test" ∧ "a.test" ≠ "" :=
  targets_after_merge_trimmed_no_blanks.1 "/" (fun _ => none) none (fun _ => "")
    { Overrides.empty with Targets := [" a.test "] }
    { DefaultRuntimeConfig with Targets := ["a.test"] } rfl "a.test" (by decide)

/-- C5: inside one layer a targets-file reference wins over the inline
target list (the inline list is installed first and then replaced by the
file contents), and the resolved contents remain the working target list
through a further layer that sets neither targets field. -/
theorem targetsFile_overrides_inline (cwd : String) (fs : FS) (c : RuntimeConfig)
    (src : Overrides) (vs : List String)
    (h1 : src.TargetsFile ≠ "")
    (h2 : readTargetsFile cwd src.TargetsFile fs = .ok vs) :
    Except.map RuntimeConfig.Targets (RuntimeConfig.apply cwd fs c src) = .ok vs ∧
    ∀ src2 : Overrides, src2.Targets = [] → src2.TargetsFile = "" →
      Except.map RuntimeConfig.Targets
        ((RuntimeConfig.apply cwd fs c src).bind
          (fun c' => RuntimeConfig.apply cwd fs c' src2)) = .ok vs := by
  constructor
  · unfold RuntimeConfig.apply
    simp [h1, h2, Except.map, applyRest]
  · intro src2 hs1 hs2
    unfold RuntimeConfig.apply
    simp [h1, h2, hs1, hs2, Except.map, Except.bind, applyRest, targetsStep]

/-- A layer that names no targets file is a pure record update. -/
theorem apply_no_targetsFile (cwd : String) (fs : FS) (c : RuntimeConfig)
    (src : Overrides) (h : src.TargetsFile = "") :
    RuntimeConfig.apply cwd fs c src = .ok (applyRest (targetsStep c src) src) := by
  unfold RuntimeConfig.apply
  rw [if_neg (by simp [h])]

theorem targetsStep_Mode (c : RuntimeConfig) (src : Overrides) :
    (targetsStep c src).Mode = c.Mode := by
  unfold targetsStep; split <;> rfl

theorem targetsStep_Threads (c : RuntimeConfig) (src : Overrides) :
    (targetsStep c src).Threads = c.Threads := by
  unfold targetsStep; split <;> rfl

theorem targetsStep_OutputDir (c : RuntimeConfig) (src : Overrides) :
    (targetsStep c src).OutputDir = c.OutputDir := by
  unfold targetsStep; split <;> rfl

theorem targetsStep_Formats (c : RuntimeConfig) (src : Overrides) :
    (targetsStep c src).Formats = c.Formats := by
  unfold targetsStep; split <;> rfl

theorem targetsStep_Detectors (c : RuntimeConfig) (src : Overrides) :
    (targetsStep c src).Detectors = c.Detectors := by
  unfold targetsStep; split <;> rfl

theorem targetsStep_DryRun (c : RuntimeConfig) (src : Overrides) :
    (targetsStep c src).DryRun = c.DryRun := by
  unfold targetsStep; split <;> rfl

theorem targetsStep_SummaryFile (c : RuntimeConfig) (src : Overrides) :
    (targetsStep c src).SummaryFile = c.SummaryFile := by
  unfold targetsStep; split <;> rfl

theorem targetsStep_Targets (c : RuntimeConfig) (src : Overrides) :
    (targetsStep c src).Targets =
      if src.Targets.length > 0 then cleanList src.Targets else c.Targets := by
  unfold targetsStep; split <;> rfl

theorem applyRest_Mode (c : RuntimeConfig) (src : Overrides) :
    (applyRest c src).Mode = if src.Mode ≠ "" then src.Mode else c.Mode := rfl

theorem applyRest_Threads (c : RuntimeConfig) (src : Overrides) :
    (applyRest c src).Threads = if src.ThreadsSet then src.Threads else c.Threads := rfl

theorem applyRest_OutputDir (c : RuntimeConfig) (src : Overrides) :
    (applyRest c src).OutputDir = if src.OutputDir ≠ "" then src.OutputDir else c.OutputDir :=
  rfl

theorem applyRest_Formats (c : RuntimeConfig) (src : Overrides) :
    (applyRest c src).Formats =
      if src.Formats.length > 0 then cleanList src.Formats else c.Formats := rfl

theorem applyRest_Detectors (c : RuntimeConfig) (src : Overrides) :
    (applyRest c src).Detectors =
      if src.Detectors.length > 0 then cleanList src.Detectors else c.Detectors := rfl

theorem applyRest_DryRun (c : RuntimeConfig) (src : Overrides) :
    (applyRest c src).DryRun = (src.DryRun.getD c.DryRun) := by
  unfold applyRest
  cases src.DryRun <;> rfl

theorem applyRest_SummaryFile (c : RuntimeConfig) (src : Overrides) :
    (applyRest c src).SummaryFile =
      if src.SummaryFile ≠ "" then src.SummaryFile else c.SummaryFile := rfl

/-- Three stacked "non-empty string wins" updates compute the
highest-precedence set layer. -/
theorem strField_resolve (d a b c : String) :
    (if c ≠ "" then c else if b ≠ "" then b else if a ≠ "" then a else d) =
      resolveOpt d [setStr a, setStr b, setStr c] := by
  unfold resolveOpt setStr
  by_cases h1 : a = "" <;> by_cases h2 : b = "" <;> by_cases h3 : c = "" <;>
    simp [h1, h2, h3]

/-- Three stacked "non-empty list wins wholesale" updates compute the
highest-precedence set layer (with the stored value cleaned). -/
theorem listField_resolve (d a b c : List String) :
    (if c.length > 0 then cleanList c
      else if b.length > 0 then cleanList b
      else if a.length > 0 then cleanList a else d) =
      resolveOpt d [setList a, setList b, setList c] := by
  unfold resolveOpt setList
  by_cases h1 : a = [] <;> by_cases h2 : b = [] <;> by_cases h3 : c = [] <;>
    simp [h1, h2, h3, List.length_pos]

/-- Three stacked `ThreadsSet`-guarded updates compute the
highest-precedence set layer. -/
theorem threadsField_resolve (d : Int) (a b c : Overrides) :
    (if c.ThreadsSet then c.Threads
      else if b.ThreadsSet then b.Threads
      else if a.ThreadsSet then a.Threads else d) =
      resolveOpt d [setThreads a, setThreads b, setThreads c] := by
  unfold resolveOpt setThreads
  cases ha : a.ThreadsSet <;> cases hb : b.ThreadsSet <;> cases hc : c.ThreadsSet <;> simp

/-- Three stacked optional-boolean updates compute the highest-precedence
set layer. -/
theorem dryRunField_resolve (d : Bool) (a b c : Option Bool) :
    (c.getD (b.getD (a.getD d))) = resolveOpt d [a, b, c] := by
  cases a <;> cases b <;> cases c <;> simp [resolveOpt]

/-- C1: with the file layer present and parseable and no layer naming a
targets file, `Load` merges defaults, file, environment and explicit
overrides in that order; every field of the result is the value of the
highest-precedence layer that sets it (set-flags: non-empty string,
non-empty list with wholesale replacement, `ThreadsSet`, non-`nil`
`DryRun`), falling back layer by layer to the default. -/
theorem load_layer_precedence (cwd : String) (fs : FS) (f : Overrides)
    (env : String → String) (x : Overrides)
    (hf : f.TargetsFile = "") (he : (overridesFromEnv env).TargetsFile = "")
    (hx : x.TargetsFile = "") :
    Load cwd fs (some (.ok f)) env x = .ok
      { Targets := resolveOpt DefaultRuntimeConfig.Targets
          [setList f.Targets, setList (overridesFromEnv env).Targets, setList x.Targets],
        Mode := resolveOpt DefaultRuntimeConfig.Mode
          [setStr f.Mode, setStr (overridesFromEnv env).Mode, setStr x.Mode],
        Threads := resolveOpt DefaultRuntimeConfig.Threads
          [setThreads f, setThreads (overridesFromEnv env), setThreads x],
        OutputDir := resolveOpt DefaultRuntimeConfig.OutputDir
          [setStr f.OutputDir, setStr (overridesFromEnv env).OutputDir, setStr x.OutputDir],
        Formats := resolveOpt DefaultRuntimeConfig.Formats
          [setList f.Formats, setList (overridesFromEnv env).Formats, setList x.Formats],
        Detectors := resolveOpt DefaultRuntimeConfig.Detectors
          [setList f.Detectors, setList (overridesFromEnv env).Detectors,
            setList x.Detectors],
        DryRun := resolveOpt DefaultRuntimeConfig.DryRun
          [f.DryRun, (overridesFromEnv env).DryRun, x.DryRun],
        SummaryFile := resolveOpt DefaultRuntimeConfig.SummaryFile
          [setStr f.SummaryFile, setStr (overridesFromEnv env).SummaryFile,
            setStr x.SummaryFile] } := by
  unfold Load loadFileStep
  dsimp only
  rw [apply_no_targetsFile cwd fs DefaultRuntimeConfig f hf]
  dsimp only
  rw [apply_no_targetsFile cwd fs _ (overridesFromEnv env) he]
  dsimp only
  rw [apply_no_targetsFile cwd fs _ x hx]
  apply congrArg Except.ok
  ext : 1
  case Targets =>
    rw [applyRest_Targets, targetsStep_Targets, applyRest_Targets, targetsStep_Targets,
      applyRest_Targets, targetsStep_Targets]
    exact listField_resolve _ _ _ _
  case Mode =>
    rw [applyRest_Mode, targetsStep_Mode, applyRest_Mode, targetsStep_Mode,
      applyRest_Mode, targetsStep_Mode]
    exact strField_resolve _ _ _ _
  case Threads =>
    rw [applyRest_Threads, targetsStep_Threads, applyRest_Threads, targetsStep_Threads,
      applyRest_Threads, targetsStep_Threads]
    exact threadsField_resolve _ _ _ _
  case OutputDir =>
    rw [applyRest_OutputDir, targetsStep_OutputDir, applyRest_OutputDir,
      targetsStep_OutputDir, applyRest_OutputDir, targetsStep_OutputDir]
    exact strField_resolve _ _ _ _
  case Formats =>
    rw [applyRest_Formats, targetsStep_Formats, applyRest_Formats, targetsStep_Formats,
      applyRest_Formats, targetsStep_Formats]
    exact listField_resolve _ _ _ _
  case Detectors =>
    rw [applyRest_Detectors, targetsStep_Detectors, applyRest_Detectors,
      targetsStep_Detectors, applyRest_Detectors, targetsStep_Detectors]
    exact listField_resolve _ _ _ _
  case DryRun =>
    rw [applyRest_DryRun, targetsStep_DryRun, applyRest_DryRun, targetsStep_DryRun,
      applyRest_DryRun, targetsStep_DryRun]
    exact dryRunField_resolve _ _ _ _
  case SummaryFile =>
    rw [applyRest_SummaryFile, targetsStep_SummaryFile, applyRest_SummaryFile,
      targetsStep_SummaryFile, applyRest_SummaryFile, targetsStep_SummaryFile]
    exact strField_resolve _ _ _ _

/-- Witness for C1: the file layer sets mode, output directory and targets;
the environment sets mode (winning over the file) and threads; the explicit
layer sets dry-run and the summary file; every other field falls back to
the default. -/
theorem load_layer_precedence_witness :
    Load "/" (fun _ => none)
      (some (.ok { Overrides.empty with
        Mode := "file-mode", OutputDir := "file-out", Targets := ["f.test"] }))
      (fun k => if k = "WORKER_MODE" then "env-mode"
        else if k = "WPHUNTER_THREADS" then "22" else "")
      { Overrides.empty with SummaryFile := "sum.json", DryRun := some true } =
      .ok { Targets := ["f.test"], Mode := "env-mode", Threads := 22,
            OutputDir := "file-out", Formats := ["json", "csv"],
            Detectors := ["version"], DryRun := true, SummaryFile := "sum.json" } :=
  load_layer_precedence "/" (fun _ => none)
    { Overrides.empty with
      Mode := "file-mode", OutputDir := "file-out", Targets := ["f.test"] }
    (fun k => if k = "WORKER_MODE" then "env-mode"
      else if k = "WPHUNTER_THREADS" then "22" else "")
    { Overrides.empty with SummaryFile := "sum.json", DryRun := some true }
    rfl rfl rfl

/-- C7: a threads environment value that does not parse as an integer
leaves the threads field unset, so the previous layer's value survives the
environment layer, and applying the environment layer cannot fail because
of it (only a targets-file reference can fail); a parseable value sets the
field; among the aliases the first non-empty one, in declared order, wins.
-/
theorem env_threads_leniency (env : String → String) (cwd : String) (fs : FS)
    (c : RuntimeConfig) :
    (goAtoi (lookupEnv env envThreadsKeys) = none →
      (overridesFromEnv env).ThreadsSet = false ∧
      ∀ c' : RuntimeConfig, RuntimeConfig.apply cwd fs c (overridesFromEnv env) = .ok c' →
        c'.Threads = c.Threads) ∧
    (∀ n : Int, goAtoi (lookupEnv env envThreadsKeys) = some n →
      (overridesFromEnv env).ThreadsSet = true ∧ (overridesFromEnv env).Threads = n) ∧
    (lookupEnv env envTargetsFileKeys = "" →
      exceptIsError (RuntimeConfig.apply cwd fs c (overridesFromEnv env)) = false) ∧
    (env "WPHUNTER_THREADS" ≠ "" →
      lookupEnv env envThreadsKeys = env "WPHUNTER_THREADS") := by
  refine ⟨?_, ?_, ?_, ?_⟩
  · intro h
    have hset : (overridesFromEnv env).ThreadsSet = false := by
      simp [overridesFromEnv, h]
    refine ⟨hset, ?_⟩
    intro c' happ
    unfold RuntimeConfig.apply at happ
    by_cases htf : (overridesFromEnv env).TargetsFile ≠ ""
    · rw [if_pos htf] at happ
      cases hread : readTargetsFile cwd (overridesFromEnv env).TargetsFile fs with
      | error e => rw [hread] at happ; cases happ
      | ok values =>
        rw [hread] at happ
        cases happ
        rw [applyRest_Threads, hset, if_neg (by simp)]
        exact targetsStep_Threads c (overridesFromEnv env)
    · rw [if_neg htf] at happ
      cases happ
      rw [applyRest_Threads, hset, if_neg (by simp)]
      exact targetsStep_Threads c (overridesFromEnv env)
  · intro n h
    constructor <;> simp [overridesFromEnv, h]
  · intro h
    rw [apply_no_targetsFile cwd fs c (overridesFromEnv env) (by simp [overridesFromEnv, h])]
    rfl
  · intro h
    simp [lookupEnv, envThreadsKeys, h]

/-- Witness for C7: `WPHUNTER_THREADS=not-a-number` leaves the field unset
and the environment layer still applies cleanly. -/
theorem env_threads_leniency_witness :
    (overridesFromEnv
      (fun k => if k = "WPHUNTER_THREADS" then "not-a-number" else "")).ThreadsSet = false ∧
    exceptIsError (RuntimeConfig.apply "/" (fun _ => none) DefaultRuntimeConfig
      (overridesFromEnv
        (fun k => if k = "WPHUNTER_THREADS" then "not-a-number" else ""))) = false :=
  ⟨((env_threads_leniency
      (fun k => if k = "WPHUNTER_THREADS" then "not-a-number" else "") "/" (fun _ => none)
      DefaultRuntimeConfig).1 rfl).1,
    (env_threads_leniency
      (fun k => if k = "WPHUNTER_THREADS" then "not-a-number" else "") "/" (fun _ => none)
      DefaultRuntimeConfig).2.2.1 rfl⟩

/-- When no cancellation check in `[k, k + |ds|)` fires, the inner loop
produces one result per detector and advances the counter past them. -/
theorem runInner_range_nocancel (ctx : Ctx) (t : String) (ds : List Detector) (k : Nat)
    (h : ∀ j, k ≤ j → j < k + ds.length → ctx.doneAt j = false) :
    runInner ctx t ds k = (ds.map (detectResult t), k + ds.length, false) := by
  induction ds generalizing k with
  | nil => simp [runInner]
  | cons d rest ih =>
    have hk : ctx.doneAt k = false := h k (Nat.le_refl k) (by simp)
    have harith : k + 1 + rest.length = k + (rest.length + 1) := by omega
    unfold runInner
    rw [hk]
    simp only [Bool.false_eq_true, if_false]
    rw [ih (k + 1) (fun j hj1 hj2 => h j (by omega) (by simp; omega))]
    simp [harith]

/-- When no cancellation check fires during the whole run, the outer loop
produces exactly the pure pair results. -/
theorem runOuter_range_nocancel (ctx : Ctx) (ds : List Detector) (ts : List String)
    (k : Nat) (h : ∀ j, k ≤ j → j < k + ds.length * ts.length → ctx.doneAt j = false) :
    runOuter ctx ds ts k = (pureResults ds ts, false) := by
  induction ts generalizing k with
  | nil => simp [runOuter, pureResults]
  | cons t rest ih =>
    have hexp : ds.length * (rest.length + 1) = ds.length * rest.length + ds.length :=
      Nat.mul_succ ds.length rest.length
    have hinner := runInner_range_nocancel ctx t ds k (fun j hj1 hj2 => by
      refine h j hj1 ?_
      rw [List.length_cons, hexp]
      omega)
    unfold runOuter
    rw [hinner]
    dsimp only
    rw [ih (k + ds.length) (fun j hj1 hj2 => by
      refine h j (by omega) ?_
      rw [List.length_cons, hexp]
      omega)]
    simp [pureResults]

/-- A never-cancelled `Run` returns the pure pair results and no error. -/
theorem Run_nocancel (ctx : Ctx) (ds : List Detector) (ts : List String)
    (h : ∀ j, ctx.doneAt j = false) :
    Run ctx ds ts = (pureResults ds ts, none) := by
  unfold Run
  by_cases hg : ds.length = 0 ∨ ts.length = 0
  · rw [if_pos hg]
    rcases hg with hg | hg
    · rw [List.length_eq_zero] at hg
      subst hg
      have : pureResults [] ts = [] := by
        induction ts with
        | nil => rfl
        | cons t rest iht => simp [pureResults] at iht ⊢
      rw [this]
    · rw [List.length_eq_zero] at hg
      subst hg
      rfl
  · rw [if_neg hg]
    rw [runOuter_range_nocancel ctx ds ts 0 (fun j _ _ => h j)]
    simp

/-- The pure results count one result per target-detector pair. -/
theorem pureResults_length (ds : List Detector) (ts : List String) :
    (pureResults ds ts).length = ts.length * ds.length := by
  induction ts with
  | nil => simp [pureResults]
  | cons t rest ih =>
    simp only [pureResults, List.map_cons, List.flatten_cons, List.length_append,
      List.length_map, List.length_cons]
    rw [show (rest.map (fun t => ds.map (fun d => detectResult t d))).flatten =
      pureResults ds rest from rfl, ih, Nat.succ_mul]
    exact Nat.add_comm _ _

/-- A predicate counted once in a list is satisfied only by that single
occurrence's value. -/
theorem countP_one_unique {α : Type} (p : α → Bool) (l : List α) (hc : l.countP p = 1)
    (a : α) (ha : a ∈ l) (hpa : p a = true) :
    ∀ b ∈ l, p b = true → b = a := by
  induction l with
  | nil => simp at ha
  | cons x xs ih =>
    intro b hb hpb
    rw [List.countP_cons] at hc
    by_cases hx : p x = true
    · have hz : xs.countP p = 0 := by simpa [hx] using hc
      have hnone : ∀ y ∈ xs, ¬ p y = true := List.countP_eq_zero.mp hz
      have hax : a = x := by
        rcases List.mem_cons.mp ha with h | h
        · exact h
        · exact absurd hpa (hnone a h)
      have hbx : b = x := by
        rcases List.mem_cons.mp hb with h | h
        · exact h
        · exact absurd hpb (hnone b h)
      rw [hax, hbx]
    · have hone : xs.countP p = 1 := by
        rw [if_neg hx] at hc; omega
      have hax : a ∈ xs := by
        rcases List.mem_cons.mp ha with h | h
        · rw [h] at hpa; exact absurd hpa hx
        · exact h
      have hbx : b ∈ xs := by
        rcases List.mem_cons.mp hb with h | h
        · rw [h] at hpb; exact absurd hpb hx
        · exact h
      exact ih hone hax b hbx hpb

/-- C2: with a never-cancelled context and a non-empty target list, `Run`
returns one result per target-detector pair (targets outer, detectors
inner) and no error; when one detector errors on every invocation with a
name no other detector shares, exactly `|targets|` of the results are its
synthetic error results, each carrying the error text in its summary and
info severity. -/
theorem run_counts_and_absorbs_errors (ctx : Ctx) (ds : List Detector)
    (ts : List String) (d : Detector) (e : String)
    (hnc : ∀ j, ctx.doneAt j = false)
    (_hts : ts ≠ [])
    (hmem : d ∈ ds)
    (hcount : ds.countP (fun x => x.Name == d.Name) = 1)
    (herr : ∀ t, d.Detect t = .error e)
    (hok : ∀ d' ∈ ds, ¬ d'.Name = d.Name → ∀ t r, d'.Detect t = .ok r →
      ¬(r.Detector = d.Name ∧ r.Summary = "detector error: " ++ e)) :
    (Run ctx ds ts).2 = none ∧
    (Run ctx ds ts).1 = pureResults ds ts ∧
    (Run ctx ds ts).1.length = ts.length * ds.length ∧
    ((Run ctx ds ts).1.countP
      (fun r => r.Detector == d.Name && r.Summary == "detector error: " ++ e)) =
      ts.length ∧
    (∀ t, detectResult t d =
      { Target := t, Detector := d.Name, Severity := "info",
        Summary := "detector error: " ++ e }) := by
  have hsynth : ∀ t, detectResult t d =
      { Target := t, Detector := d.Name, Severity := "info",
        Summary := "detector error: " ++ e } := by
    intro t
    unfold detectResult
    rw [herr t]
  have hrun := Run_nocancel ctx ds ts hnc
  refine ⟨by rw [hrun], by rw [hrun], ?_, ?_, hsynth⟩
  · rw [hrun]
    exact pureResults_length ds ts
  · rw [hrun]
    have huniq : ∀ b ∈ ds, (b.Name == d.Name) = true → b = d :=
      countP_one_unique _ ds hcount d hmem (by simp)
    have hper : ∀ t : String, (ds.map (fun x => detectResult t x)).countP
        (fun r => r.Detector == d.Name && r.Summary == "detector error: " ++ e) = 1 := by
      intro t
      rw [List.countP_map]
      have hpoint : ∀ x ∈ ds,
          ((fun r => r.Detector == d.Name && r.Summary == "detector error: " ++ e) ∘
            (fun x => detectResult t x)) x = true ↔ (fun x => x.Name == d.Name) x = true := by
        intro x hx
        simp only [Function.comp]
        constructor
        · intro hp
          by_cases hname : x.Name = d.Name
          · simp [hname]
          · exfalso
            cases hdet : x.Detect t with
            | ok r =>
              have : detectResult t x = r := by unfold detectResult; rw [hdet]
              rw [this] at hp
              simp only [Bool.and_eq_true, beq_iff_eq] at hp
              exact hok x hx hname t r hdet ⟨hp.1, hp.2⟩
            | error e2 =>
              have : detectResult t x =
                  { Target := t, Detector := x.Name, Severity := "info",
                    Summary := "detector error: " ++ e2 } := by
                unfold detectResult; rw [hdet]
              rw [this] at hp
              simp only [Bool.and_eq_true, beq_iff_eq] at hp
              exact hname hp.1
        · intro hp
          have hxd : x = d := huniq x hx hp
          rw [hxd, hsynth t]
          simp
      rw [List.countP_congr hpoint]
      exact hcount
    have : ∀ us : List String, (pureResults ds us).countP
        (fun r => r.Detector == d.Name && r.Summary == "detector error: " ++ e) =
        us.length := by
      intro us
      induction us with
      | nil => simp [pureResults]
      | cons u rest ihu =>
        simp only [pureResults, List.map_cons, List.flatten_cons, List.countP_append]
        rw [show (rest.map (fun t => ds.map (fun d => detectResult t d))).flatten =
          pureResults ds rest from rfl, ihu, hper u, List.length_cons]
        omega
    exact this ts

/-- When the first firing cancellation check is the `K`-th one and falls
inside this inner loop, the loop returns the results of the invocations
completed before it, with the counter stopped at `K`. -/
theorem runInner_range_cancel (ctx : Ctx) (t : String) (ds : List Detector)
    (k K : Nat) (hk : k ≤ K) (hK : K < k + ds.length)
    (hbelow : ∀ j, k ≤ j → j < K → ctx.doneAt j = false)
    (hdone : ctx.doneAt K = true) :
    runInner ctx t ds k = ((ds.map (detectResult t)).take (K - k), K, true) := by
  induction ds generalizing k with
  | nil => simp at hK; omega
  | cons d rest ih =>
    by_cases hkK : k = K
    · subst hkK
      unfold runInner
      rw [hdone]
      simp
    · have hlt : k < K := Nat.lt_of_le_of_ne hk hkK
      have hneg : ctx.doneAt k = false := hbelow k (Nat.le_refl k) hlt
      unfold runInner
      rw [hneg]
      simp only [Bool.false_eq_true, if_false]
      rw [ih (k + 1) (by omega) (by simp at hK ⊢; omega)
        (fun j hj1 hj2 => hbelow j (by omega) hj2)]
      have harith : K - k = (K - (k + 1)) + 1 := by omega
      rw [List.map_cons, harith, List.take_succ_cons]

/-- When the first firing cancellation check is the `K`-th one and falls
inside the run, the outer loop returns the first `K - k` pure results and
reports cancellation. -/
theorem runOuter_range_cancel (ctx : Ctx) (ds : List Detector) (ts : List String)
    (k K : Nat) (hk : k ≤ K) (hK : K < k + ds.length * ts.length)
    (hbelow : ∀ j, k ≤ j → j < K → ctx.doneAt j = false)
    (hdone : ctx.doneAt K = true) :
    runOuter ctx ds ts k = ((pureResults ds ts).take (K - k), true) := by
  induction ts generalizing k with
  | nil => simp at hK; omega
  | cons t rest ih =>
    have hexp : ds.length * (t :: rest).length = ds.length * rest.length + ds.length := by
      rw [List.length_cons, Nat.mul_succ]
    rw [hexp] at hK
    by_cases hcase : K < k + ds.length
    · have hinner := runInner_range_cancel ctx t ds k K hk hcase hbelow hdone
      unfold runOuter
      rw [hinner]
      dsimp only
      rw [if_pos rfl]
      simp only [pureResults, List.map_cons, List.flatten_cons]
      rw [List.take_append_of_le_length (by simp; omega)]
    · have hinner := runInner_range_nocancel ctx t ds k
        (fun j hj1 hj2 => hbelow j hj1 (by omega))
      unfold runOuter
      rw [hinner]
      dsimp only
      rw [ih (k + ds.length) (by omega) (by omega)
        (fun j hj1 hj2 => hbelow j (by omega) hj2)]
      simp only [pureResults, List.map_cons, List.flatten_cons]
      rw [List.take_append_eq_append_take,
        @List.take_of_length_le _ (K - k) (List.map (fun d => detectResult t d) ds)
          (by simp; omega)]
      have harith : K - k -
          (List.map (fun d => detectResult t d) ds).length = K - (k + ds.length) := by
        simp; omega
      rw [harith]
      rfl

/-- C3: `Run` checks cancellation before every detector invocation; when
the `K`-th check (counting invocations from 0) is the first to observe
cancellation and falls inside the run, `Run` returns exactly the first `K`
results of the uncancelled run — the invocations completed strictly before
the check — together with the context's cancellation error, and no result
for any later pair. -/
theorem run_cancellation_returns_prefix (ctx : Ctx) (ds : List Detector)
    (ts : List String) (K : Nat)
    (hbelow : ∀ j, j < K → ctx.doneAt j = false)
    (hdone : ctx.doneAt K = true)
    (hK : K < ts.length * ds.length) :
    Run ctx ds ts = ((pureResults ds ts).take K, some ctx.err) ∧
    (Run { doneAt := fun _ => false, err := ctx.err } ds ts).1 = pureResults ds ts := by
  constructor
  · have hds : ¬ ds.length = 0 := by
      intro h0
      rw [h0, Nat.mul_zero] at hK
      omega
    have hts : ¬ ts.length = 0 := by
      intro h0
      rw [h0, Nat.zero_mul] at hK
      omega
    unfold Run
    rw [if_neg (by simp [hds, hts])]
    rw [runOuter_range_cancel ctx ds ts 0 K (Nat.zero_le K)
      (by rw [Nat.zero_add, Nat.mul_comm]; exact hK)
      (fun j _ hj2 => hbelow j hj2) hdone]
    rw [Nat.sub_zero]
    rfl
  · rw [Run_nocancel _ ds ts (fun _ => rfl)]

/-- Witness for C3: cancellation first observed at the fourth check (index
3) of a 2-target 2-detector run returns exactly the first three results
plus the cancellation error. -/
theorem run_cancellation_returns_prefix_witness :
    Run { doneAt := fun j => j == 3, err := "context canceled" }
      [passingDetector, failingDetector] ["t1", "t2"] =
      ((pureResults [passingDetector, failingDetector] ["t1", "t2"]).take 3,
        some "context canceled") ∧
    (Run { doneAt := fun _ => false, err := "context canceled" }
      [passingDetector, failingDetector] ["t1", "t2"]).1 =
      pureResults [passingDetector, failingDetector] ["t1", "t2"] :=
  run_cancellation_returns_prefix
    { doneAt := fun j => j == 3, err := "context canceled" }
    [passingDetector, failingDetector] ["t1", "t2"] 3
    (by decide) rfl (by decide)

/-- C9 counterexample: the Go zero value `var results []detector.Result` is
a nil slice and is an empty sequence, yet `json.MarshalIndent` serializes
it as `null`, so the detections artifact body for that empty sequence is
`null` plus a newline — not `[]` plus a newline. -/
theorem detections_nil_slice_marshals_null :
    writeDetectionsArtifactBody (fun _ => "") none = "null\n" := rfl

/-- C9 (amended): the detections artifact body is always the indented JSON
marshalling plus exactly one trailing newline (the marshalling itself never
ends in a newline); an empty non-nil result slice yields the body `[]`
plus newline, while the nil slice yields `null` plus newline — inside the
scan pipeline the writer only ever receives a non-empty slice, built by the
detector runner. -/
theorem detections_body_array_newline :
    (∀ ser : Result → String, writeDetectionsArtifactBody ser (some []) = "[]\n") ∧
    (∀ ser : Result → String, writeDetectionsArtifactBody ser none = "null\n") ∧
    (∀ (ser : Result → String) (o : Option (List Result)),
      writeDetectionsArtifactBody ser o = goMarshalIndentResults ser o ++ "\n" ∧
      (goMarshalIndentResults ser o).data.getLast? ≠ some '\n') := by
  refine ⟨fun ser => rfl, fun ser => rfl, ?_⟩
  intro ser o
  refine ⟨rfl, ?_⟩
  have hdata : ∀ a b : String, (a ++ b).data = a.data ++ b.data := fun a b => rfl
  cases o with
  | none =>
    show ("null" : String).data.getLast? ≠ some '\n'
    decide
  | some rs =>
    cases rs with
    | nil =>
      show ("[]" : String).data.getLast? ≠ some '\n'
      decide
    | cons r rest =>
      show (("[\n  " ++ String.intercalate ",\n  " ((r :: rest).map ser) ++ "\n]").data.getLast?
        ≠ some '\n')
      rw [hdata, List.getLast?_append_of_ne_nil _ (by decide)]
      decide

/-- Witness for C9 (amended): the empty non-nil slice serializes as `[]`
plus one newline. -/
theorem detections_body_array_newline_witness :
    writeDetectionsArtifactBody (fun _ => "") (some []) = "[]\n" :=
  detections_body_array_newline.1 (fun _ => "")

/-- Witness for C2: two targets, a passing and an always-failing detector —
four results, two of them the failing detector's synthetic error results,
and no run-level error. -/
theorem run_counts_and_absorbs_errors_witness :
    (Run Ctx.live [passingDetector, failingDetector] ["t1", "t2"]).2 = none ∧
    (Run Ctx.live [passingDetector, failingDetector] ["t1", "t2"]).1 =
      pureResults [passingDetector, failingDetector] ["t1", "t2"] ∧
    (Run Ctx.live [passingDetector, failingDetector] ["t1", "t2"]).1.length = 2 * 2 ∧
    ((Run Ctx.live [passingDetector, failingDetector] ["t1", "t2"]).1.countP
      (fun r => r.Detector == "bad" && r.Summary == "detector error: boom")) = 2 ∧
    (∀ t, detectResult t failingDetector =
      { Target := t, Detector := "bad", Severity := "info",
        Summary := "detector error: boom" }) :=
  run_counts_and_absorbs_errors Ctx.live [passingDetector, failingDetector]
    ["t1", "t2"] failingDetector "boom" (fun _ => rfl) (by decide)
    (List.Mem.tail _ (List.Mem.head _)) rfl (fun _ => rfl)
    (by
      intro d' hd' hne t r hr
      rcases List.mem_cons.mp hd' with h | h
      · subst h
        have hr2 : Except.ok (Result.mk t "good" "info" "clean") = Except.ok r := hr
        injection hr2 with hinj
        subst hinj
        intro hcon
        exact absurd hcon.1 (show ¬ ("good" : String) = "bad" by decide)
      · rcases List.mem_cons.mp h with h2 | h2
        · subst h2
          exact absurd rfl hne
        · simp at h2)

/-- Witness for C5: the layer sets both `Targets := ["inline.test"]` and
`TargetsFile := "t.txt"`; the file contents win. -/
theorem targetsFile_overrides_inline_witness :
    Except.map RuntimeConfig.Targets
      (RuntimeConfig.apply "/h" (fun p => if p = "/h/t.txt" then some ["x.test"] else none)
        DefaultRuntimeConfig
        { Overrides.empty with Targets := ["inline.test"], TargetsFile := "t.txt" }) =
      .ok ["x.test"] :=
  (targetsFile_overrides_inline "/h"
    (fun p => if p = "/h/t.txt" then some ["x.test"] else none) DefaultRuntimeConfig
    { Overrides.empty with Targets := ["inline.test"], TargetsFile := "t.txt" }
    ["x.test"] (by decide) rfl).1
